import Mathlib

/-!
Shallow embedding of `src/inventory_app.py` (Streamlit + MongoDB inventory
tracker).  The MongoDB collection is modelled as a `Store`: a list of
documents in insertion order together with a fresh-id counter (MongoDB
ObjectIds are modelled as `Nat`, always freshly generated and valid).
Wall-clock timestamps (`datetime.datetime.now()`) are modelled by a `now : Nat`
parameter threaded into every operation that stamps them.  Python `float`
costs are modelled as `Int` (the code only ever compares costs for equality
and defaults them to zero).  Python `None` for the optional packaging
multipliers is `Option.none`.
-/

namespace InventoryApp

/-- The business fields of one inventory document (everything the code stores
except `_id`, `created_at`, `updated_at`). -/
structure Fields where
  brand : String
  product_name : String
  product_id : String
  minimum_individual_quantity : Nat
  current_amount : Nat
  per_package : Option Nat
  per_box : Option Nat
  per_case : Option Nat
  cost : Int
  last_checked : String
deriving DecidableEq, Repr

/-- One MongoDB document: business fields plus the store-stamped `_id`,
`created_at` and `updated_at`. -/
structure Doc where
  fields : Fields
  id : Nat
  created_at : Nat
  updated_at : Nat
deriving DecidableEq, Repr

/-- The `inventory` collection: documents in insertion order plus the
counter producing the next fresh ObjectId. -/
structure Store where
  docs : List Doc
  nextId : Nat
deriving DecidableEq, Repr

/-- One row of `get_inventory()` output: the 11-element list
`[brand, ..., last_checked, str(_id)]`. -/
structure InvRow where
  fields : Fields
  id : Nat
deriving DecidableEq, Repr

/-- Raw caller-supplied arguments of `add_item` / `update_item` (the ten
positional parameters, before the zero-to-None normalization). -/
structure RawItem where
  brand : String
  product_name : String
  product_id : String
  min_qty : Nat
  current_amount : Nat
  per_package : Option Nat
  per_box : Option Nat
  per_case : Option Nat
  cost : Int
  last_checked : String
deriving DecidableEq, Repr

/-- `None if v == 0 or v is None else v` (lines 81-83 and 171-173). -/
def normPer (v : Option Nat) : Option Nat :=
  match v with
  | none => none
  | some n => if n = 0 then none else some n

/-- The document built by `add_item`/`update_item` after normalizing the
three packaging multipliers. -/
def RawItem.normalize (r : RawItem) : Fields :=
  { brand := r.brand
    product_name := r.product_name
    product_id := r.product_id
    minimum_individual_quantity := r.min_qty
    current_amount := r.current_amount
    per_package := normPer r.per_package
    per_box := normPer r.per_box
    per_case := normPer r.per_case
    cost := r.cost
    last_checked := r.last_checked }

/-- `add_item` (lines 74-104).  The unique index on `product_id`
(line 28) makes `insert_one` raise `DuplicateKeyError` when the key already
exists among live documents; the handler catches it, reports via
`st.error`, and returns `False` with the collection untouched. -/
def addItem (now : Nat) (r : RawItem) (s : Store) : Bool × Store :=
  if s.docs.any (fun d => d.fields.product_id == r.product_id) then
    (false, s)
  else
    (true, ⟨s.docs ++ [⟨r.normalize, s.nextId, now, now⟩], s.nextId + 1⟩)

/-- `update_item` (lines 164-196).  `update_one({"_id": ...})` updates the
first matching document; with no match it is a silent no-op and the function
still returns `True`.  The unique `product_id` index makes the update raise
`DuplicateKeyError` when the new key collides with a *different* document;
the handler catches it and returns `False` with the collection untouched. -/
def updateFirst (itemId : Nat) (now : Nat) (f : Fields) : List Doc → List Doc
  | [] => []
  | d :: ds =>
    if d.id == itemId then
      { d with fields := f, updated_at := now } :: ds
    else
      d :: updateFirst itemId now f ds

def updateItem (now : Nat) (itemId : Nat) (r : RawItem) (s : Store) : Bool × Store :=
  if s.docs.any (fun d => d.id == itemId) then
    if s.docs.any (fun d =>
        d.id != itemId && d.fields.product_id == r.normalize.product_id) then
      (false, s)
    else
      (true, { s with docs := updateFirst itemId now r.normalize s.docs })
  else
    (true, s)

/-- `delete_items` (lines 149-162): `delete_many({"_id": {"$in": ids}})`;
ids not present are silently ignored. -/
def deleteItems (ids : List Nat) (s : Store) : Store :=
  { s with docs := s.docs.filter (fun d => !(ids.contains d.id)) }

/-! ### Sorting by `(brand, product_name)`
`get_inventory`, `export_csv` and the low-stock query all sort by
`[("brand", 1), ("product_name", 1)]`.  MongoDB's sort is modelled as a
stable insertion sort on that key. -/

/-- The sort key of a document. -/
def fkey (f : Fields) : String × String := (f.brand, f.product_name)

/-- Strict lexicographic comparison of character lists. -/
def charListLt : List Char → List Char → Bool
  | [], [] => false
  | [], _ :: _ => true
  | _ :: _, [] => false
  | a :: as, b :: bs =>
    if a < b then true
    else if b < a then false
    else charListLt as bs

/-- Lexicographic string comparison (MongoDB's string sort order). -/
def strLt (a b : String) : Bool := charListLt a.data b.data

/-- Strict lexicographic order on `(brand, product_name)` keys. -/
def keyLt (a b : String × String) : Bool :=
  strLt a.1 b.1 || (a.1 == b.1 && strLt a.2 b.2)

/-- Stable insertion of a document into an already sorted run. -/
def insortDoc (x : Doc) : List Doc → List Doc
  | [] => [x]
  | h :: t =>
    if keyLt (fkey x.fields) (fkey h.fields) then x :: h :: t
    else h :: insortDoc x t

/-- Stable sort by `(brand, product_name)`: equal keys keep insertion
order, matching MongoDB's stable sort on the insertion-ordered collection. -/
def sortDocs (l : List Doc) : List Doc :=
  l.foldl (fun acc x => insortDoc x acc) []

def Doc.toRow (d : Doc) : InvRow := ⟨d.fields, d.id⟩

/-- `get_inventory()` without a filter (lines 106-147): all documents
sorted by `(brand, product_name)`, each converted to the 11-element row. -/
def getInventory (s : Store) : List InvRow :=
  (sortDocs s.docs).map Doc.toRow

/-- `get_low_stock_items` (lines 488-532): `$match` on
`minimum_individual_quantity > 0 && current_amount <= minimum_individual_quantity`,
then `$sort` by `(brand, product_name)`. -/
def getLowStockItems (s : Store) : List InvRow :=
  (sortDocs (s.docs.filter (fun d =>
    decide (0 < d.fields.minimum_individual_quantity ∧
      d.fields.current_amount ≤ d.fields.minimum_individual_quantity)))).map Doc.toRow

/-! ### History system
Session stacks of full-table snapshots.  Python appends to the end of the
list and `pop()` removes the end, so the newest entry (the top of the
stack) is modelled as the *head* of a Lean list; `pop(0)` (evicting the
oldest) drops the last element. -/

/-- One entry of `undo_stack`/`redo_stack`:
`{'data': get_inventory(), 'timestamp': ..., 'action': ...}`. -/
structure HistEntry where
  data : List InvRow
  timestamp : Nat
  action : String
deriving DecidableEq, Repr

/-- The session state the undo/redo system touches: the collection plus the
two snapshot stacks (newest first). -/
structure AppState where
  store : Store
  undo_stack : List HistEntry
  redo_stack : List HistEntry
deriving DecidableEq, Repr

/-- `insert_many` of freshly built documents: each row's business fields
with a fresh ObjectId and both timestamps stamped `now` (the restore path
drops the snapshot's recorded `item_id` and lets MongoDB assign new ids). -/
def buildDocs (now : Nat) : Nat → List Fields → List Doc
  | _, [] => []
  | n, f :: fs => ⟨f, n, now, now⟩ :: buildDocs now (n + 1) fs

/-- `restore_state_from_history` (lines 1326-1373): `delete_many({})`, then
re-insert every snapshot row.  Snapshots produced by this revision are
always full 11-element rows, so only the `len(item) == 11` branch is
reachable here. -/
def restoreState (now : Nat) (data : List InvRow) (s : Store) : Store :=
  ⟨buildDocs now s.nextId (data.map InvRow.fields), s.nextId + data.length⟩

/-- `save_state_to_history` (lines 722-740), exactly as written: build the
current snapshot, append it to `redo_stack`, then `undo_stack.pop()` —
which raises `IndexError` on an empty undo stack (modelled as `none`) —
and restore the popped entry's data into the collection. -/
def saveStateToHistory (now : Nat) (st : AppState) : Option AppState :=
  let current : HistEntry := ⟨getInventory st.store, now, "save"⟩
  let redo' := current :: st.redo_stack
  match st.undo_stack with
  | [] => none
  | last :: rest =>
    some ⟨restoreState now last.data st.store, rest, redo'⟩

/-- `perform_undo` (lines 1375-1387; the source file is truncated mid-body
at line 1387).  The visible prefix guards on an empty `undo_stack` and
builds the current-state snapshot; the tail is
Modelled from the spec: missing tail of `perform_undo` — push the
pre-undo snapshot onto `redo`, pop the newest `undo` entry and replace the
whole collection with its data (spec section 4.3, mirroring `perform_redo`). -/
def performUndo (now : Nat) (st : AppState) : Bool × AppState :=
  match st.undo_stack with
  | [] => (false, st)
  | last :: rest =>
    let current : HistEntry := ⟨getInventory st.store, now, "current"⟩
    (true, ⟨restoreState now last.data st.store, rest, current :: st.redo_stack⟩)

/-- `perform_redo` (lines 742-758): no-op returning `False` on an empty
redo stack; otherwise push the current snapshot onto `undo_stack`, pop the
newest redo entry and restore it. -/
def performRedo (now : Nat) (st : AppState) : Bool × AppState :=
  match st.redo_stack with
  | [] => (false, st)
  | next :: rest =>
    let current : HistEntry := ⟨getInventory st.store, now, "current"⟩
    (true, ⟨restoreState now next.data st.store, current :: st.undo_stack, rest⟩)

/-! ### The bulk-save reconciler ("Save All Changes", lines 961-1104)
`original_data` is the id-keyed map of last-known rows (iterated in
insertion order), `edited_df` the grid contents.  Rows lacking Brand,
Product Name or Product ID are skipped; the rest are normalized, matched
greedily by trimmed `product_id` against not-yet-processed last-known
rows, and turned into update/insert operations; unmatched last-known ids
become one delete. -/

/-- Python's whitespace class for `str.strip()`. -/
def isPyWs (c : Char) : Bool :=
  c = ' ' || c = '\t' || c = '\n' || c = '\r' || c = '\x0b' || c = '\x0c'

/-- Python's `str.strip()`: drop leading and trailing whitespace. -/
def pyStrip (s : String) : String :=
  ⟨((s.data.dropWhile isPyWs).reverse.dropWhile isPyWs).reverse⟩

/-- A `per_package`/`per_box`/`per_case` cell of the displayed DataFrame
(line 924), as Python's `!=` sees it at lines 1030-1032.  pandas dtype
inference makes the distinction global to the column: with every value in
the column absent the column keeps `object` dtype and the cell is Python
`None` (`pnone`); with any other row carrying a value the column is
promoted to `float64` and an absent cell becomes `NaN` (`nan`), which
compares unequal to everything — `None` included. -/
inductive PdCell where
  | pnone
  | nan
  | val (n : Nat)
deriving DecidableEq, Repr

/-- The logical (displayed) multiplier a cell stands for: `NaN` and `None`
both mean "absent". -/
def PdCell.toOpt : PdCell → Option Nat
  | .pnone => none
  | .nan => none
  | .val v => some v

/-- Python `orig_cell != edited_value` for one multiplier (lines
1030-1032): `None != None` is `False`, `NaN != x` is `True` for every `x`,
and a number equals the edited `int` exactly (`5.0 == 5`). -/
def pdNe : PdCell → Option Nat → Bool
  | .pnone, none => false
  | .pnone, some _ => true
  | .nan, _ => true
  | .val v, some w => v != w
  | .val _, none => true

/-- One entry of `original_data` (lines 968-981): the last-known display
fields keyed by the document id, with the three multipliers kept as the
pandas cells the comparison reads. -/
structure OrigRow where
  id : Nat
  brand : String
  product_name : String
  product_id : String
  min_qty : Nat
  current_amount : Nat
  per_package : PdCell
  per_box : PdCell
  per_case : PdCell
  cost : Int
  last_checked : String
deriving DecidableEq, Repr

/-- One multiplier cell of the DataFrame built from a listing:
`colHasVal` says whether any row of the whole column carries a value
(pandas promotes the column to `float64` exactly then). -/
def pdColCell (colHasVal : Bool) : Option Nat → PdCell
  | some v => .val v
  | none => if colHasVal then .nan else .pnone

/-- `original_data` as built from the displayed `get_inventory` listing
(lines 921-981): one `OrigRow` per listed row, in listing order, with the
multiplier cells produced by the column-wide dtype rule. -/
def mkOrigRows (rows : List InvRow) : List OrigRow :=
  rows.map (fun r =>
    ⟨r.id, r.fields.brand, r.fields.product_name, r.fields.product_id,
     r.fields.minimum_individual_quantity, r.fields.current_amount,
     pdColCell (rows.any (fun q => q.fields.per_package.isSome)) r.fields.per_package,
     pdColCell (rows.any (fun q => q.fields.per_box.isSome)) r.fields.per_box,
     pdColCell (rows.any (fun q => q.fields.per_case.isSome)) r.fields.per_case,
     r.fields.cost, r.fields.last_checked⟩)

/-- One row of the edited grid; `none` models a pandas `NaN`/empty cell. -/
structure EditedRow where
  brand : Option String
  product_name : Option String
  product_id : Option String
  min_qty : Option Nat
  current_amount : Option Nat
  per_package : Option Nat
  per_box : Option Nat
  per_case : Option Nat
  cost : Option Int
  last_checked : Option String
deriving DecidableEq, Repr

/-- Type-normalization of an edited row (lines 992-1009): strings trimmed,
missing quantities coerced to 0, packaging multipliers kept only when
strictly positive, missing cost coerced to 0, missing date replaced by
today's date. -/
def normalizeEdited (today : String) (b n p : String) (e : EditedRow) : Fields :=
  { brand := pyStrip b
    product_name := pyStrip n
    product_id := pyStrip p
    minimum_individual_quantity := e.min_qty.getD 0
    current_amount := e.current_amount.getD 0
    per_package := match e.per_package with
      | some v => if 0 < v then some v else none
      | none => none
    per_box := match e.per_box with
      | some v => if 0 < v then some v else none
      | none => none
    per_case := match e.per_case with
      | some v => if 0 < v then some v else none
      | none => none
    cost := e.cost.getD 0
    last_checked := e.last_checked.getD today }

/-- Lines 1011-1016: the first last-known row (in `original_data` order)
that is not yet processed and whose trimmed `product_id` equals the edited
row's. -/
def findMatch (pid : String) (processed : List Nat) : List OrigRow → Option OrigRow
  | [] => none
  | o :: os =>
    if !(processed.contains o.id) && pyStrip o.product_id == pid then some o
    else findMatch pid processed os

/-- The `needs_update` field-by-field comparison (lines 1023-1035), with
the three multipliers compared under Python/pandas `!=` semantics: a `NaN`
last-known cell always counts as changed. -/
def needsUpdate (o : OrigRow) (f : Fields) : Bool :=
  pyStrip o.brand != f.brand ||
  pyStrip o.product_name != f.product_name ||
  pyStrip o.product_id != f.product_id ||
  o.min_qty != f.minimum_individual_quantity ||
  o.current_amount != f.current_amount ||
  pdNe o.per_package f.per_package ||
  pdNe o.per_box f.per_box ||
  pdNe o.per_case f.per_case ||
  o.cost != f.cost ||
  o.last_checked != f.last_checked

/-- The operations the Save-All handler issues against the store. -/
structure ReconResult where
  updates : List (Nat × Fields)
  inserts : List Fields
  deletes : List Nat
deriving DecidableEq, Repr

/-- The main reconciliation loop (lines 984-1076), mirroring the Python
row loop with its `processed_ids` set: skip rows missing an essential
field, match the rest, update on any field difference, insert when
unmatched, and finally delete every last-known id never processed. -/
def reconLoop (today : String) (lastKnown : List OrigRow) :
    List EditedRow → List Nat → ReconResult
  | [], processed =>
    { updates := []
      inserts := []
      deletes := (lastKnown.filter (fun o => !(processed.contains o.id))).map OrigRow.id }
  | e :: es, processed =>
    match e.brand, e.product_name, e.product_id with
    | some b, some n, some p =>
      let f := normalizeEdited today b n p e
      match findMatch f.product_id processed lastKnown with
      | some o =>
        let rest := reconLoop today lastKnown es (o.id :: processed)
        if needsUpdate o f then { rest with updates := (o.id, f) :: rest.updates }
        else rest
      | none =>
        let rest := reconLoop today lastKnown es processed
        { rest with inserts := f :: rest.inserts }
    | _, _, _ => reconLoop today lastKnown es processed

/-- The Save-All reconciler on a last-known row set and an edited grid. -/
def reconcile (today : String) (lastKnown : List OrigRow) (edited : List EditedRow) :
    ReconResult :=
  reconLoop today lastKnown edited []

/-- Rows that survive the line-989 skip: Brand, Product Name and Product ID
all present. -/
def hasEssentials (e : EditedRow) : Bool :=
  e.brand.isSome && e.product_name.isSome && e.product_id.isSome

/-- The final contents of `processed_ids`, recomputed on its own following
the spec's step-2 wording (the greedy first-match trace, ignoring the
issued operations). -/
def procIds (lastKnown : List OrigRow) : List EditedRow → List Nat → List Nat
  | [], processed => processed
  | e :: es, processed =>
    match e.brand, e.product_name, e.product_id with
    | some _, some _, some p =>
      match findMatch (pyStrip p) processed lastKnown with
      | some o => procIds lastKnown es (o.id :: processed)
      | none => procIds lastKnown es processed
    | _, _, _ => procIds lastKnown es processed

/-- Spec section 4.2 step 3 wording: some field of the matched pair
genuinely differs (strings compared after trimming, an absent multiplier —
whether `None` or `NaN` — equal to an absent edited one). -/
def FieldsDiffer (o : OrigRow) (f : Fields) : Prop :=
  pyStrip o.brand ≠ f.brand ∨
  pyStrip o.product_name ≠ f.product_name ∨
  pyStrip o.product_id ≠ f.product_id ∨
  o.min_qty ≠ f.minimum_individual_quantity ∨
  o.current_amount ≠ f.current_amount ∨
  o.per_package.toOpt ≠ f.per_package ∨
  o.per_box.toOpt ≠ f.per_box ∨
  o.per_case.toOpt ≠ f.per_case ∨
  o.cost ≠ f.cost ∨
  o.last_checked ≠ f.last_checked

instance (o : OrigRow) (f : Fields) : Decidable (FieldsDiffer o f) := by
  unfold FieldsDiffer; exact inferInstance

/-! ### CSV import (lines 437-486) -/

/-- A parsed numeric CSV cell: `missing` is a pandas `NaN` (absent column
or empty cell), `bad` a value on which `int()`/`float()` raises, `val` a
successfully parsed number. -/
inductive NumCell (α : Type) where
  | missing
  | bad
  | val (v : α)
deriving DecidableEq, Repr

/-- One CSV data row as the import loop reads it. -/
structure CsvRow where
  brand : String
  product_name : String
  product_id : String
  min_qty : NumCell Nat
  current_amount : NumCell Nat
  per_package : NumCell Nat
  per_box : NumCell Nat
  per_case : NumCell Nat
  cost : NumCell Int
  last_checked : String
deriving DecidableEq, Repr

/-- An uploaded CSV file: its header columns and its rows. -/
structure CsvFile where
  columns : List String
  rows : List CsvRow
deriving DecidableEq, Repr

/-- Lines 455-461: a missing `Per ...` cell becomes `None`; otherwise
`int(...)` either raises or stores the value verbatim (zero included). -/
def parsePer : NumCell Nat → Option (Option Nat)
  | .missing => some none
  | .bad => none
  | .val v => some (some v)

/-- `int(row[...])` on a required quantity: raises on `NaN` and on
non-numeric text. -/
def parseReq : NumCell Nat → Option Nat
  | .missing => none
  | .bad => none
  | .val v => some v

/-- Line 472: `float(row['Cost']) if pd.notna(row['Cost']) else 0.0`. -/
def parseCost : NumCell Int → Option Int
  | .missing => some 0
  | .bad => none
  | .val v => some v

/-- The document built from one CSV row (lines 454-477); `none` when any
conversion raises, aborting the whole import. -/
def parseRow (r : CsvRow) : Option Fields := do
  let pp ← parsePer r.per_package
  let pb ← parsePer r.per_box
  let pc ← parsePer r.per_case
  let mq ← parseReq r.min_qty
  let ca ← parseReq r.current_amount
  let c ← parseCost r.cost
  pure { brand := r.brand
         product_name := r.product_name
         product_id := r.product_id
         minimum_individual_quantity := mq
         current_amount := ca
         per_package := pp
         per_box := pb
         per_case := pc
         cost := c
         last_checked := r.last_checked }

/-- All rows, in order; the first conversion failure aborts everything. -/
def parseRows : List CsvRow → Option (List Fields)
  | [] => some []
  | r :: rs =>
    match parseRow r with
    | none => none
    | some f =>
      match parseRows rs with
      | none => none
      | some fs => some (f :: fs)

/-- Line 444. -/
def requiredColumns : List String :=
  ["Brand", "Product Name", "Product ID", "Min Individual Qty", "Current Amount",
   "Cost", "Last Checked"]

/-- `import_csv` (lines 437-486): abort (store untouched) when a required
column is missing; otherwise `delete_many({})` *first*, then build all
documents — any malformed cell raises, is caught, and returns `False`
with the collection already cleared — and finally `insert_many`. -/
def importCsv (now : Nat) (file : CsvFile) (s : Store) : Bool × Store :=
  if requiredColumns.all (fun c => file.columns.contains c) then
    let cleared : Store := { s with docs := [] }
    match parseRows file.rows with
    | none => (false, cleared)
    | some fs =>
      (true, ⟨buildDocs now cleared.nextId fs, cleared.nextId + fs.length⟩)
  else
    (false, s)

/-! ### Order facts about the sort key -/

theorem charListLt_irrefl : ∀ l : List Char, charListLt l l = false
  | [] => rfl
  | a :: as => by simp [charListLt, charListLt_irrefl as]

theorem charListLt_asymm : ∀ {a b : List Char},
    charListLt a b = true → charListLt b a = false := by
  intro a
  induction a with
  | nil =>
    intro b
    cases b with
    | nil => simp [charListLt]
    | cons y ys => intro _; simp [charListLt]
  | cons x xs ih =>
    intro b
    cases b with
    | nil => simp [charListLt]
    | cons y ys =>
      simp only [charListLt]
      rcases lt_trichotomy x y with h | h | h
      · intro _; simp [asymm h, h]
      · subst h; simp only [lt_irrefl, if_false]; exact ih
      · simp [asymm h, h]

theorem charListLt_trans : ∀ {a b c : List Char},
    charListLt a b = true → charListLt b c = true → charListLt a c = true := by
  intro a
  induction a with
  | nil =>
    intro b c hab hbc
    cases c with
    | nil =>
      cases b with
      | nil => exact hab
      | cons y ys => simp [charListLt] at hbc
    | cons z zs => rfl
  | cons x xs ih =>
    intro b c hab hbc
    cases b with
    | nil => simp [charListLt] at hab
    | cons y ys =>
      cases c with
      | nil => simp [charListLt] at hbc
      | cons z zs =>
        simp only [charListLt] at hab hbc ⊢
        rcases lt_trichotomy x y with h1 | h1 | h1
        · rcases lt_trichotomy y z with h2 | h2 | h2
          · simp [lt_trans h1 h2]
          · subst h2; simp [h1]
          · simp [asymm h2, h2] at hbc
        · subst h1
          rcases lt_trichotomy x z with h2 | h2 | h2
          · simp [h2]
          · subst h2
            simp only [lt_irrefl, if_false] at hab hbc ⊢
            exact ih hab hbc
          · simp [asymm h2, h2] at hbc
        · simp [asymm h1, h1] at hab

theorem strLt_irrefl (a : String) : strLt a a = false := charListLt_irrefl _

theorem strLt_asymm {a b : String} (h : strLt a b = true) : strLt b a = false :=
  charListLt_asymm h

theorem strLt_trans {a b c : String} (h1 : strLt a b = true) (h2 : strLt b c = true) :
    strLt a c = true := charListLt_trans h1 h2

theorem strLt_ne {a b : String} (h : strLt a b = true) : a ≠ b := by
  intro he; subst he; rw [strLt_irrefl] at h; exact Bool.false_ne_true h

theorem keyLt_asymm {a b : String × String} (h : keyLt a b = true) : keyLt b a = false := by
  unfold keyLt at h ⊢
  rcases Bool.or_eq_true _ _ |>.mp h with h1 | h1
  · have hne : b.1 ≠ a.1 := fun he => strLt_ne h1 he.symm
    simp [strLt_asymm h1, hne]
  · obtain ⟨he, h2⟩ := Bool.and_eq_true _ _ |>.mp h1
    have he' : a.1 = b.1 := eq_of_beq he
    simp [← he', strLt_irrefl, strLt_asymm h2]

theorem keyLt_trans {a b c : String × String} (h1 : keyLt a b = true)
    (h2 : keyLt b c = true) : keyLt a c = true := by
  unfold keyLt at h1 h2 ⊢
  rcases Bool.or_eq_true _ _ |>.mp h1 with hx | hx
  · rcases Bool.or_eq_true _ _ |>.mp h2 with hy | hy
    · simp [strLt_trans hx hy]
    · obtain ⟨he, _⟩ := Bool.and_eq_true _ _ |>.mp hy
      have := eq_of_beq he; simp [← this, hx]
  · obtain ⟨he, hx2⟩ := Bool.and_eq_true _ _ |>.mp hx
    have hab : a.1 = b.1 := eq_of_beq he
    rcases Bool.or_eq_true _ _ |>.mp h2 with hy | hy
    · simp [hab, hy]
    · obtain ⟨he2, hy2⟩ := Bool.and_eq_true _ _ |>.mp hy
      have hbc : b.1 = c.1 := eq_of_beq he2
      have : a.1 = c.1 := hab.trans hbc
      simp [this, strLt_trans hx2 hy2]

/-! ### Sortedness of `sortDocs` -/

/-- The later document of a sorted run is not strictly below the earlier. -/
def docLe (a b : Doc) : Prop := keyLt (fkey b.fields) (fkey a.fields) = false

/-- Sorted by `(brand, product_name)` with ties in insertion order. -/
def SortedDocs (l : List Doc) : Prop := l.Pairwise docLe

theorem mem_insortDoc {a x : Doc} : ∀ {l : List Doc},
    a ∈ insortDoc x l ↔ a = x ∨ a ∈ l := by
  intro l
  induction l with
  | nil => simp [insortDoc]
  | cons h t ih =>
    cases hk : keyLt (fkey x.fields) (fkey h.fields) with
    | true => simp [insortDoc, hk, List.mem_cons]
    | false =>
      simp [insortDoc, hk, List.mem_cons, ih]
      tauto

theorem mem_sortDocs {a : Doc} {l : List Doc} : a ∈ sortDocs l ↔ a ∈ l := by
  suffices h : ∀ (l acc : List Doc),
      a ∈ List.foldl (fun acc x => insortDoc x acc) acc l ↔ a ∈ acc ∨ a ∈ l by
    have := h l []
    simpa [sortDocs] using this
  intro l
  induction l with
  | nil => intro acc; simp
  | cons x t ih =>
    intro acc
    simp only [List.foldl_cons, ih, mem_insortDoc, List.mem_cons]
    tauto

theorem insortDoc_sorted {x : Doc} : ∀ {l : List Doc},
    SortedDocs l → SortedDocs (insortDoc x l) := by
  intro l
  induction l with
  | nil => intro _; exact List.pairwise_singleton _ _
  | cons h t ih =>
    intro hs
    rcases List.pairwise_cons.mp hs with ⟨hh, ht⟩
    cases hk : keyLt (fkey x.fields) (fkey h.fields) with
    | true =>
      have hgoal : SortedDocs (x :: h :: t) := by
        refine List.pairwise_cons.mpr ⟨?_, hs⟩
        intro b hb
        rcases List.mem_cons.mp hb with rfl | hb
        · exact keyLt_asymm hk
        · have hbh : docLe h b := hh b hb
          unfold docLe at hbh ⊢
          cases hbx : keyLt (fkey b.fields) (fkey x.fields) with
          | false => rfl
          | true =>
            have : keyLt (fkey b.fields) (fkey h.fields) = true := keyLt_trans hbx hk
            rw [this] at hbh; simp at hbh
      simpa [insortDoc, hk] using hgoal
    | false =>
      have hgoal : SortedDocs (h :: insortDoc x t) := by
        refine List.pairwise_cons.mpr ⟨?_, ih ht⟩
        intro b hb
        rcases mem_insortDoc.mp hb with rfl | hb
        · exact hk
        · exact hh b hb
      simpa [insortDoc, hk] using hgoal

theorem sortDocs_sorted (l : List Doc) : SortedDocs (sortDocs l) := by
  suffices h : ∀ (l acc : List Doc), SortedDocs acc →
      SortedDocs (List.foldl (fun acc x => insortDoc x acc) acc l) by
    exact h l [] List.Pairwise.nil
  intro l
  induction l with
  | nil => intro acc h; exact h
  | cons x t ih => intro acc h; exact ih _ (insortDoc_sorted h)

theorem insortDoc_eq_append {x : Doc} : ∀ {l : List Doc},
    (∀ a ∈ l, keyLt (fkey x.fields) (fkey a.fields) = false) →
    insortDoc x l = l ++ [x] := by
  intro l
  induction l with
  | nil => intro _; rfl
  | cons h t ih =>
    intro hall
    simp only [insortDoc]
    rw [if_neg (by simp [hall h (List.mem_cons_self h t)]), ih]
    · rfl
    · intro a ha; exact hall a (List.mem_cons_of_mem h ha)

theorem sortDocs_eq_of_sorted : ∀ {l : List Doc}, SortedDocs l → sortDocs l = l := by
  suffices h : ∀ (l acc : List Doc), List.Pairwise docLe (acc ++ l) →
      List.foldl (fun acc x => insortDoc x acc) acc l = acc ++ l by
    intro l hs
    have := h l [] (by simpa using hs)
    simpa [sortDocs] using this
  intro l
  induction l with
  | nil => intro acc _; simp
  | cons x t ih =>
    intro acc hs
    have hx : ∀ a ∈ acc, keyLt (fkey x.fields) (fkey a.fields) = false := by
      intro a ha
      have := (List.pairwise_append.mp hs).2.2 a ha x (List.mem_cons_self x t)
      exact this
    simp only [List.foldl_cons]
    rw [insortDoc_eq_append hx, ih (acc ++ [x]) (by simpa using hs)]
    simp

/-! ### Facts about snapshot restoration -/

theorem buildDocs_map_fields (now : Nat) : ∀ (n : Nat) (fs : List Fields),
    (buildDocs now n fs).map Doc.fields = fs
  | _, [] => rfl
  | n, f :: fs => by simp [buildDocs, buildDocs_map_fields now (n + 1) fs]

theorem mem_buildDocs_fields {d : Doc} {now n : Nat} {fs : List Fields}
    (hd : d ∈ buildDocs now n fs) : d.fields ∈ fs := by
  rw [← buildDocs_map_fields now n fs]
  exact List.mem_map_of_mem Doc.fields hd

theorem buildDocs_pairwise {P : Fields → Fields → Prop} (now : Nat) :
    ∀ (n : Nat) (fs : List Fields), List.Pairwise P fs →
      List.Pairwise (fun a b : Doc => P a.fields b.fields) (buildDocs now n fs)
  | _, [], _ => List.Pairwise.nil
  | n, f :: fs, h => by
    rcases List.pairwise_cons.mp h with ⟨hf, ht⟩
    refine List.pairwise_cons.mpr ⟨?_, buildDocs_pairwise now (n + 1) fs ht⟩
    intro d hd
    exact hf d.fields (mem_buildDocs_fields hd)

/-- The later row of a sorted inventory listing is not strictly below the
earlier. -/
def rowLe (a b : InvRow) : Prop := keyLt (fkey b.fields) (fkey a.fields) = false

/-- Snapshot rows in the order `get_inventory` emits them. -/
def RowsSorted (rows : List InvRow) : Prop := rows.Pairwise rowLe

theorem getInventory_rowsSorted (s : Store) : RowsSorted (getInventory s) := by
  unfold getInventory RowsSorted
  rw [List.pairwise_map]
  exact sortDocs_sorted s.docs

/-- Restoring a sorted snapshot and re-listing gives back exactly the
snapshot's business fields: the restored documents are already in sorted
order, so the stable re-sort leaves them in place. -/
theorem getInventory_restoreState (now : Nat) {rows : List InvRow}
    (h : RowsSorted rows) (s : Store) :
    (getInventory (restoreState now rows s)).map InvRow.fields
      = rows.map InvRow.fields := by
  unfold getInventory restoreState
  have hpw : List.Pairwise (fun f g : Fields => keyLt (fkey g) (fkey f) = false)
      (rows.map InvRow.fields) := by
    rw [List.pairwise_map]; exact h
  have hsorted : SortedDocs (buildDocs now s.nextId (rows.map InvRow.fields)) :=
    buildDocs_pairwise now _ _ hpw
  rw [sortDocs_eq_of_sorted hsorted, List.map_map]
  have hcomp : (InvRow.fields ∘ Doc.toRow) = Doc.fields := rfl
  rw [hcomp, buildDocs_map_fields]

/-! ### Concrete fixtures used by the closed witnesses -/

def exStore : Store :=
  ⟨[⟨⟨"Acme", "Widget", "W1", 5, 3, none, none, none, 200, "2024-01-01"⟩, 0, 0, 0⟩], 1⟩

def exSnap : HistEntry :=
  ⟨[⟨⟨"Old", "Thing", "T1", 1, 1, none, none, none, 100, "2023-12-31"⟩, 7⟩], 0, "save"⟩

def exStateEmpty : AppState := ⟨exStore, [], []⟩

def exStateOne : AppState := ⟨exStore, [exSnap], []⟩

/-! ### Claims about the history system -/

/-- C1: the spec says `save_state_to_history` pushes the current snapshot
onto the undo stack (evicting past depth 10, clearing redo), so that the
first mutating action of a session records a snapshot.  The code as
written instead appends the snapshot to the redo stack and unconditionally
pops the undo stack, so with the empty undo stack of a fresh session it
raises `IndexError` (modelled as `none`) instead of recording anything:
the intended push/evict/clear body sits orphaned at lines 1316-1324. -/
theorem claim_C1_record_crashes_on_fresh_session :
    saveStateToHistory 1 ⟨exStore, [], []⟩ = none := rfl

/-- C10: `save_state_to_history` is not total — on an empty undo stack it
raises (none); on a non-empty one it replaces the store contents with the
popped prior snapshot (the restored documents carry exactly the popped
snapshot's business fields) instead of leaving the store unchanged. -/
theorem claim_C10_save_state_pops_undo (now : Nat) :
    (∀ st : AppState, st.undo_stack = [] → saveStateToHistory now st = none) ∧
    (∀ (st : AppState) (last : HistEntry) (rest : List HistEntry),
      st.undo_stack = last :: rest →
      ∃ st' : AppState, saveStateToHistory now st = some st' ∧
        st'.store.docs.map Doc.fields = last.data.map InvRow.fields ∧
        st'.undo_stack = rest ∧
        st'.redo_stack = ⟨getInventory st.store, now, "save"⟩ :: st.redo_stack) := by
  constructor
  · intro st hempty
    unfold saveStateToHistory
    rw [hempty]
  · intro st last rest hcons
    refine ⟨⟨restoreState now last.data st.store, rest,
      ⟨getInventory st.store, now, "save"⟩ :: st.redo_stack⟩, ?_, ?_, rfl, rfl⟩
    · unfold saveStateToHistory
      rw [hcons]
    · unfold restoreState
      exact buildDocs_map_fields now _ _

theorem claim_C10_witness :
    (saveStateToHistory 3 exStateEmpty = none) ∧
    (∃ st' : AppState, saveStateToHistory 3 exStateOne = some st' ∧
      st'.store.docs.map Doc.fields = exSnap.data.map InvRow.fields ∧
      st'.undo_stack = [] ∧
      st'.redo_stack = ⟨getInventory exStateOne.store, 3, "save"⟩ :: []) :=
  ⟨(claim_C10_save_state_pops_undo 3).1 exStateEmpty rfl,
   (claim_C10_save_state_pops_undo 3).2 exStateOne exSnap [] rfl⟩

/-- C3: from any session state with a non-empty undo stack, `undo()`
immediately followed by `redo()` (no mutation recorded in between) brings
the visible record set — the business fields listed by `get_inventory` —
back to exactly its pre-undo value.  (The restore path assigns fresh
document ids and timestamps, so the identity carried back is the full
tuple of business fields.) -/
theorem claim_C3_undo_redo_roundtrip (now1 now2 : Nat) (st : AppState)
    (h : st.undo_stack ≠ []) :
    (performUndo now1 st).1 = true ∧
    (performRedo now2 (performUndo now1 st).2).1 = true ∧
    (getInventory (performRedo now2 (performUndo now1 st).2).2.store).map InvRow.fields
      = (getInventory st.store).map InvRow.fields := by
  obtain ⟨last, rest, hu⟩ : ∃ last rest, st.undo_stack = last :: rest := by
    cases hc : st.undo_stack with
    | nil => exact absurd hc h
    | cons a t => exact ⟨a, t, rfl⟩
  simp only [performUndo, performRedo, hu]
  exact ⟨trivial, trivial, getInventory_restoreState now2 (getInventory_rowsSorted st.store) _⟩

theorem claim_C3_witness :
    exStateOne.undo_stack ≠ [] ∧
    ((performUndo 5 exStateOne).1 = true ∧
     (performRedo 6 (performUndo 5 exStateOne).2).1 = true ∧
     (getInventory (performRedo 6 (performUndo 5 exStateOne).2).2.store).map InvRow.fields
       = (getInventory exStateOne.store).map InvRow.fields) :=
  ⟨List.cons_ne_nil _ _, claim_C3_undo_redo_roundtrip 5 6 exStateOne (List.cons_ne_nil _ _)⟩

/-! ### Low stock (C8) -/

/-- C8: `low_stock()` returns exactly the listed records with a strictly
positive minimum and a current amount at or below it; a record whose
minimum is zero is never reported regardless of its current amount. -/
theorem claim_C8_low_stock :
    (∀ (s : Store) (r : InvRow),
      r ∈ getLowStockItems s ↔
        r ∈ getInventory s ∧ 0 < r.fields.minimum_individual_quantity ∧
          r.fields.current_amount ≤ r.fields.minimum_individual_quantity) ∧
    (∀ (s : Store) (r : InvRow), r.fields.minimum_individual_quantity = 0 →
      r ∉ getLowStockItems s) := by
  have hmain : ∀ (s : Store) (r : InvRow),
      r ∈ getLowStockItems s ↔
        r ∈ getInventory s ∧ 0 < r.fields.minimum_individual_quantity ∧
          r.fields.current_amount ≤ r.fields.minimum_individual_quantity := by
    intro s r
    unfold getLowStockItems getInventory
    simp only [List.mem_map, mem_sortDocs, List.mem_filter]
    constructor
    · rintro ⟨d, ⟨hd, hp⟩, rfl⟩
      have hprop := of_decide_eq_true hp
      exact ⟨⟨d, hd, rfl⟩, hprop.1, hprop.2⟩
    · rintro ⟨⟨d, hd, rfl⟩, h1, h2⟩
      exact ⟨d, ⟨hd, decide_eq_true ⟨h1, h2⟩⟩, rfl⟩
  refine ⟨hmain, ?_⟩
  intro s r h0 hmem
  have hprop := (hmain s r).mp hmem
  rw [h0] at hprop
  exact absurd hprop.2.1 (lt_irrefl 0)

def exLowRow : InvRow := ⟨⟨"Acme", "Widget", "W1", 5, 3, none, none, none, 200, "2024-01-01"⟩, 0⟩

def exZeroMinRow : InvRow := ⟨⟨"Zed", "NoMin", "Z9", 0, 0, none, none, none, 10, "2024-01-01"⟩, 3⟩

def exLowStore : Store :=
  ⟨[⟨exZeroMinRow.fields, 3, 0, 0⟩, ⟨exLowRow.fields, 0, 0, 0⟩], 4⟩

theorem claim_C8_witness :
    (exLowRow ∈ getLowStockItems exLowStore ↔
      exLowRow ∈ getInventory exLowStore ∧
        0 < exLowRow.fields.minimum_individual_quantity ∧
        exLowRow.fields.current_amount ≤ exLowRow.fields.minimum_individual_quantity) ∧
    exZeroMinRow ∉ getLowStockItems exLowStore :=
  ⟨claim_C8_low_stock.1 exLowStore exLowRow,
   claim_C8_low_stock.2 exLowStore exZeroMinRow rfl⟩

/-! ### Store invariants: unique ids and unique product_ids (C5, C6) -/

/-- The live business keys. -/
def pids (s : Store) : List String := s.docs.map (fun d => d.fields.product_id)

/-- Well-formedness MongoDB maintains by construction: ObjectIds are
pairwise distinct and older than the next fresh one. -/
def StoreWF (s : Store) : Prop :=
  (s.docs.map Doc.id).Nodup ∧ ∀ i ∈ s.docs.map Doc.id, i < s.nextId

/-- The `product_id` uniqueness invariant enforced by the unique index. -/
def UniquePids (s : Store) : Prop := (pids s).Nodup

instance (s : Store) : Decidable (StoreWF s) := by
  unfold StoreWF; exact inferInstance

instance (s : Store) : Decidable (UniquePids s) := by
  unfold UniquePids; exact inferInstance

/-- A store-mutating operation of the insert/update fragment. -/
inductive Op where
  | add (now : Nat) (r : RawItem)
  | upd (now : Nat) (itemId : Nat) (r : RawItem)
deriving DecidableEq, Repr

def applyOp (s : Store) : Op → Store
  | .add now r => (addItem now r s).2
  | .upd now itemId r => (updateItem now itemId r s).2

def applyOps (s : Store) (ops : List Op) : Store := ops.foldl applyOp s

theorem updateFirst_map_id (itemId now : Nat) (f : Fields) :
    ∀ l : List Doc, (updateFirst itemId now f l).map Doc.id = l.map Doc.id
  | [] => rfl
  | d :: ds => by
    cases hd : (d.id == itemId) with
    | true => simp [updateFirst, hd]
    | false => simp [updateFirst, hd, updateFirst_map_id itemId now f ds]

theorem mem_pids_updateFirst {itemId now : Nat} {f : Fields} {x : String} :
    ∀ {l : List Doc},
      x ∈ (updateFirst itemId now f l).map (fun d => d.fields.product_id) →
      x ∈ l.map (fun d => d.fields.product_id) ∨ x = f.product_id := by
  intro l
  induction l with
  | nil => simp [updateFirst]
  | cons d ds ih =>
    cases hd : (d.id == itemId) with
    | true =>
      simp only [updateFirst, hd, if_true, List.map_cons, List.mem_cons]
      tauto
    | false =>
      simp only [updateFirst, hd, Bool.false_eq_true, if_false, List.map_cons,
        List.mem_cons]
      intro h
      rcases h with h | h
      · exact Or.inl (Or.inl h)
      · rcases ih h with h2 | h2
        · exact Or.inl (Or.inr h2)
        · exact Or.inr h2

theorem updateFirst_pids_nodup {itemId now : Nat} {f : Fields} :
    ∀ {l : List Doc}, (l.map Doc.id).Nodup →
      (l.map (fun d => d.fields.product_id)).Nodup →
      (∀ d ∈ l, d.id ≠ itemId → d.fields.product_id ≠ f.product_id) →
      ((updateFirst itemId now f l).map (fun d => d.fields.product_id)).Nodup := by
  intro l
  induction l with
  | nil => intro _ _ _; simp [updateFirst]
  | cons d ds ih =>
    intro hid hpid hconf
    rcases List.nodup_cons.mp hid with ⟨hdnot, hidds⟩
    rcases List.nodup_cons.mp hpid with ⟨hpnot, hpds⟩
    cases hd : (d.id == itemId) with
    | true =>
      have hdeq : d.id = itemId := eq_of_beq hd
      simp only [updateFirst, hd, if_true, List.map_cons]
      refine List.nodup_cons.mpr ⟨?_, hpds⟩
      intro hmem
      rcases List.mem_map.mp hmem with ⟨e, he, hepid⟩
      have heid : e.id ≠ itemId := by
        intro he2
        exact hdnot (by
          rw [hdeq]
          rw [← he2]
          exact List.mem_map_of_mem Doc.id he)
      exact hconf e (List.mem_cons_of_mem d he) heid hepid
    | false =>
      simp only [updateFirst, hd, Bool.false_eq_true, if_false, List.map_cons]
      refine List.nodup_cons.mpr ⟨?_, ih hidds hpds
        (fun e he hne => hconf e (List.mem_cons_of_mem d he) hne)⟩
      intro hmem
      rcases mem_pids_updateFirst hmem with h2 | h2
      · exact hpnot h2
      · have hdne : d.id ≠ itemId := by
          intro he; rw [he] at hd; simp at hd
        exact hconf d (List.mem_cons_self d ds) hdne h2

theorem addItem_dup_eq {now : Nat} {r : RawItem} {s : Store}
    (h : s.docs.any (fun d => d.fields.product_id == r.product_id) = true) :
    addItem now r s = (false, s) := by
  unfold addItem; rw [if_pos h]

theorem addItem_new_eq {now : Nat} {r : RawItem} {s : Store}
    (h : s.docs.any (fun d => d.fields.product_id == r.product_id) = false) :
    addItem now r s = (true, ⟨s.docs ++ [⟨r.normalize, s.nextId, now, now⟩], s.nextId + 1⟩) := by
  unfold addItem; rw [if_neg (by simp [h])]

theorem updateItem_notfound_eq {now itemId : Nat} {r : RawItem} {s : Store}
    (h : s.docs.any (fun d => d.id == itemId) = false) :
    updateItem now itemId r s = (true, s) := by
  unfold updateItem; rw [if_neg (by simp [h])]

theorem updateItem_conflict_eq {now itemId : Nat} {r : RawItem} {s : Store}
    (h1 : s.docs.any (fun d => d.id == itemId) = true)
    (h2 : s.docs.any (fun d =>
      d.id != itemId && d.fields.product_id == r.normalize.product_id) = true) :
    updateItem now itemId r s = (false, s) := by
  unfold updateItem; rw [if_pos h1, if_pos h2]

theorem updateItem_ok_eq {now itemId : Nat} {r : RawItem} {s : Store}
    (h1 : s.docs.any (fun d => d.id == itemId) = true)
    (h2 : s.docs.any (fun d =>
      d.id != itemId && d.fields.product_id == r.normalize.product_id) = false) :
    updateItem now itemId r s =
      (true, { s with docs := updateFirst itemId now r.normalize s.docs }) := by
  unfold updateItem; rw [if_pos h1, if_neg (by simp [h2])]

theorem addItem_preserves (now : Nat) (r : RawItem) {s : Store}
    (hwf : StoreWF s) (hu : UniquePids s) :
    StoreWF (addItem now r s).2 ∧ UniquePids (addItem now r s).2 := by
  cases hdup : s.docs.any (fun d => d.fields.product_id == r.product_id) with
  | true => rw [addItem_dup_eq hdup]; exact ⟨hwf, hu⟩
  | false =>
    rw [addItem_new_eq hdup]
    rcases hwf with ⟨hnodup, hbound⟩
    refine ⟨⟨?_, ?_⟩, ?_⟩
    · simp only [List.map_append, List.map_cons, List.map_nil]
      rw [List.nodup_append]
      refine ⟨hnodup, List.nodup_singleton _, ?_⟩
      intro i hi hi2
      have : i = s.nextId := by simpa using hi2
      subst this
      exact absurd (hbound _ hi) (lt_irrefl _)
    · intro i hi
      simp only [List.map_append, List.map_cons, List.map_nil, List.mem_append,
        List.mem_singleton] at hi
      rcases hi with hi | hi
      · exact Nat.lt_succ_of_lt (hbound i hi)
      · subst hi; exact Nat.lt_succ_self _
    · unfold UniquePids pids at hu ⊢
      simp only [List.map_append, List.map_cons, List.map_nil]
      rw [List.nodup_append]
      refine ⟨hu, List.nodup_singleton _, ?_⟩
      intro p hp hp2
      have hpe : p = r.product_id := by
        simpa [RawItem.normalize] using hp2
      subst hpe
      have hnone : ∀ d ∈ s.docs, ¬(d.fields.product_id == r.product_id) = true := by
        intro d hd
        have := List.any_eq_false.mp hdup d hd
        simp [this]
      rcases List.mem_map.mp hp with ⟨d, hd, hdp⟩
      exact hnone d hd (by simp [hdp])

theorem updateItem_preserves (now itemId : Nat) (r : RawItem) {s : Store}
    (hwf : StoreWF s) (hu : UniquePids s) :
    StoreWF (updateItem now itemId r s).2 ∧ UniquePids (updateItem now itemId r s).2 := by
  cases hfound : s.docs.any (fun d => d.id == itemId) with
  | false => rw [updateItem_notfound_eq hfound]; exact ⟨hwf, hu⟩
  | true =>
    cases hconf : s.docs.any
        (fun d => d.id != itemId && d.fields.product_id == r.normalize.product_id) with
    | true => rw [updateItem_conflict_eq hfound hconf]; exact ⟨hwf, hu⟩
    | false =>
      rw [updateItem_ok_eq hfound hconf]
      rcases hwf with ⟨hnodup, hbound⟩
      have hconf' : ∀ d ∈ s.docs, d.id ≠ itemId →
          d.fields.product_id ≠ r.normalize.product_id := by
        intro d hd hne heq
        have hall := List.any_eq_false.mp hconf d hd
        simp only [Bool.and_eq_true, bne_iff_ne, beq_iff_eq] at hall
        exact hall ⟨hne, heq⟩
      refine ⟨⟨?_, ?_⟩, ?_⟩
      · simpa [updateFirst_map_id] using hnodup
      · intro i hi
        rw [updateFirst_map_id] at hi
        exact hbound i hi
      · exact updateFirst_pids_nodup hnodup hu hconf'

theorem applyOps_preserves : ∀ (ops : List Op) (s : Store),
    StoreWF s → UniquePids s → StoreWF (applyOps s ops) ∧ UniquePids (applyOps s ops)
  | [], s, hwf, hu => ⟨hwf, hu⟩
  | op :: ops, s, hwf, hu => by
    have hstep : StoreWF (applyOp s op) ∧ UniquePids (applyOp s op) := by
      cases op with
      | add now r => exact addItem_preserves now r hwf hu
      | upd now itemId r => exact updateItem_preserves now itemId r hwf hu
    exact applyOps_preserves ops (applyOp s op) hstep.1 hstep.2

/-- C5: inserting a record whose `product_id` already exists among live
records is rejected with the store unchanged (the caught
`DuplicateKeyError` reported as `False`), and `product_id` stays unique
across every sequence of inserts and updates. -/
theorem claim_C5_duplicate_key :
    (∀ (now : Nat) (r : RawItem) (s : Store),
      r.product_id ∈ pids s → addItem now r s = (false, s)) ∧
    (∀ (ops : List Op) (s : Store),
      StoreWF s → UniquePids s → UniquePids (applyOps s ops)) := by
  constructor
  · intro now r s hmem
    rcases List.mem_map.mp hmem with ⟨d, hd, hdp⟩
    exact addItem_dup_eq (List.any_eq_true.mpr ⟨d, hd, by simp [hdp]⟩)
  · intro ops s hwf hu
    exact (applyOps_preserves ops s hwf hu).2

def exDupRaw : RawItem := ⟨"Another", "Brand", "W1", 1, 1, none, none, none, 5, "2024-02-02"⟩

theorem claim_C5_witness :
    addItem 9 exDupRaw exStore = (false, exStore) ∧
    UniquePids (applyOps exStore [Op.add 1 ⟨"B", "N", "P2", 1, 1, none, none, none, 5, "d"⟩]) :=
  ⟨claim_C5_duplicate_key.1 9 exDupRaw exStore (by decide),
   claim_C5_duplicate_key.2 [Op.add 1 ⟨"B", "N", "P2", 1, 1, none, none, none, 5, "d"⟩]
     exStore (by decide) (by decide)⟩

/-! ### C6: update on a missing id -/

theorem updateFirst_append {itemId now : Nat} {f : Fields} {d : Doc}
    (hd : d.id = itemId) :
    ∀ {l1 l2 : List Doc}, (∀ e ∈ l1, e.id ≠ itemId) →
      updateFirst itemId now f (l1 ++ d :: l2)
        = l1 ++ { d with fields := f, updated_at := now } :: l2 := by
  intro l1
  induction l1 with
  | nil =>
    intro l2 _
    simp only [List.nil_append, updateFirst]
    rw [if_pos (by simp [hd])]
  | cons e es ih =>
    intro l2 hne
    simp only [List.cons_append, updateFirst]
    rw [if_neg (by simp [hne e (List.mem_cons_self e es)])]
    exact congrArg (e :: ·) (ih fun a ha => hne a (List.mem_cons_of_mem e ha))

def exDoc0 : Doc := ⟨⟨"Acme", "Widget", "W1", 5, 3, none, none, none, 200, "2024-01-01"⟩, 0, 0, 0⟩

def exC6Raw : RawItem := ⟨"New", "Name", "W1B", 1, 9, some 0, none, none, 7, "2024-02-02"⟩

/-- C6 counterexample: the spec says `update(id, fields)` *fails with
NotFound* when `id` is absent.  `update_item` with an id matching no
document performs `update_one` that matches nothing and still returns
`True`: a silently reported success, not a NotFound failure (the store is
indeed unchanged). -/
theorem claim_C6_counterexample :
    updateItem 7 99 exC6Raw exStore = (true, exStore) := by decide

/-- C6 amended: update with a missing id is a silent success no-op (the
spec's own section 7 calls NotFound "treated as a no-op"); when the id is
present and the new `product_id` does not collide with a different live
document, the update overwrites every business field (with the zero-to-None
normalization) and stamps a fresh `updated_at`, preserving `id` and
`created_at`. -/
theorem claim_C6_update_semantics :
    (∀ (now itemId : Nat) (r : RawItem) (s : Store),
      (∀ d ∈ s.docs, d.id ≠ itemId) → updateItem now itemId r s = (true, s)) ∧
    (∀ (now itemId : Nat) (r : RawItem) (s : Store) (l1 l2 : List Doc) (d : Doc),
      s.docs = l1 ++ d :: l2 → d.id = itemId →
      (∀ e ∈ l1, e.id ≠ itemId) →
      (∀ e ∈ s.docs, e.id ≠ itemId → e.fields.product_id ≠ r.product_id) →
      updateItem now itemId r s =
        (true, { s with
          docs := l1 ++ { d with fields := r.normalize, updated_at := now } :: l2 })) := by
  constructor
  · intro now itemId r s hmiss
    have hfound : s.docs.any (fun d => d.id == itemId) = false := by
      rw [List.any_eq_false]
      intro d hd
      simp [hmiss d hd]
    exact updateItem_notfound_eq hfound
  · intro now itemId r s l1 l2 d hdocs hid hfirst hnoconf
    have hdmem : d ∈ s.docs := by
      rw [hdocs]; exact List.mem_append_right l1 (List.mem_cons_self d l2)
    have hfound : s.docs.any (fun x => x.id == itemId) = true :=
      List.any_eq_true.mpr ⟨d, hdmem, by simp [hid]⟩
    have hpid : r.normalize.product_id = r.product_id := rfl
    have hconf : s.docs.any (fun x =>
        x.id != itemId && x.fields.product_id == r.normalize.product_id) = false := by
      rw [List.any_eq_false]
      intro x hx
      simp only [Bool.and_eq_true, bne_iff_ne, beq_iff_eq, hpid, not_and]
      exact hnoconf x hx
    rw [updateItem_ok_eq hfound hconf, hdocs, updateFirst_append hid hfirst]

theorem claim_C6_witness :
    (updateItem 4 99 exC6Raw exStore = (true, exStore)) ∧
    (updateItem 4 0 exC6Raw exStore =
      (true, { exStore with
        docs := [] ++ { exDoc0 with fields := exC6Raw.normalize, updated_at := 4 } :: [] })) :=
  ⟨claim_C6_update_semantics.1 4 99 exC6Raw exStore (by decide),
   claim_C6_update_semantics.2 4 0 exC6Raw exStore [] [] exDoc0 rfl rfl
     (by simp) (by decide)⟩

/-! ### C7: the positivity invariant of the packaging multipliers -/

/-- An optional multiplier is "absent or strictly positive". -/
def PerOk : Option Nat → Prop
  | none => True
  | some v => 0 < v

instance (o : Option Nat) : Decidable (PerOk o) := by
  cases o with
  | none => exact isTrue trivial
  | some v => exact inferInstanceAs (Decidable (0 < v))

def FieldsPerOk (f : Fields) : Prop :=
  PerOk f.per_package ∧ PerOk f.per_box ∧ PerOk f.per_case

instance (f : Fields) : Decidable (FieldsPerOk f) := by
  unfold FieldsPerOk; exact inferInstance

def StorePerOk (s : Store) : Prop := ∀ d ∈ s.docs, FieldsPerOk d.fields

instance (s : Store) : Decidable (StorePerOk s) := by
  unfold StorePerOk; exact inferInstance

theorem normPer_perOk (o : Option Nat) : PerOk (normPer o) := by
  cases o with
  | none => exact trivial
  | some v =>
    by_cases hv : v = 0
    · simp [normPer, hv, PerOk]
    · simp only [normPer, if_neg hv]
      exact Nat.pos_of_ne_zero hv

theorem normalize_fieldsPerOk (r : RawItem) : FieldsPerOk r.normalize :=
  ⟨normPer_perOk _, normPer_perOk _, normPer_perOk _⟩

theorem normalizeEdited_fieldsPerOk (today b n p : String) (e : EditedRow) :
    FieldsPerOk (normalizeEdited today b n p e) := by
  refine ⟨?_, ?_, ?_⟩ <;>
  · simp only [normalizeEdited]
    first
    | (cases e.per_package with
       | none => exact trivial
       | some v =>
         by_cases hv : 0 < v
         · simp [hv, PerOk]
         · simp [hv, PerOk])
    | (cases e.per_box with
       | none => exact trivial
       | some v =>
         by_cases hv : 0 < v
         · simp [hv, PerOk]
         · simp [hv, PerOk])
    | (cases e.per_case with
       | none => exact trivial
       | some v =>
         by_cases hv : 0 < v
         · simp [hv, PerOk]
         · simp [hv, PerOk])

theorem mem_updateFirst {itemId now : Nat} {f : Fields} {x : Doc} :
    ∀ {l : List Doc}, x ∈ updateFirst itemId now f l → x ∈ l ∨ x.fields = f := by
  intro l
  induction l with
  | nil => simp [updateFirst]
  | cons d ds ih =>
    cases hd : (d.id == itemId) with
    | true =>
      simp only [updateFirst, hd, if_true, List.mem_cons]
      intro h
      rcases h with rfl | h
      · exact Or.inr rfl
      · exact Or.inl (Or.inr h)
    | false =>
      simp only [updateFirst, hd, Bool.false_eq_true, if_false, List.mem_cons]
      intro h
      rcases h with rfl | h
      · exact Or.inl (Or.inl rfl)
      · rcases ih h with h2 | h2
        · exact Or.inl (Or.inr h2)
        · exact Or.inr h2

theorem reconLoop_perOk (today : String) (lK : List OrigRow) :
    ∀ (es : List EditedRow) (processed : List Nat),
      (∀ p ∈ (reconLoop today lK es processed).updates, FieldsPerOk p.2) ∧
      (∀ f ∈ (reconLoop today lK es processed).inserts, FieldsPerOk f) := by
  intro es
  induction es with
  | nil => intro processed; simp [reconLoop]
  | cons e es ih =>
    intro processed
    cases hb : e.brand with
    | none =>
      simp only [reconLoop, hb]
      exact ih processed
    | some b =>
      cases hn : e.product_name with
      | none =>
        simp only [reconLoop, hb, hn]
        exact ih processed
      | some n =>
        cases hp : e.product_id with
        | none =>
          simp only [reconLoop, hb, hn, hp]
          exact ih processed
        | some p =>
          simp only [reconLoop, hb, hn, hp]
          cases hm : findMatch (normalizeEdited today b n p e).product_id processed lK with
          | some o =>
            cases hu : needsUpdate o (normalizeEdited today b n p e) with
            | true =>
              simp only [hu, if_true]
              refine ⟨?_, (ih (o.id :: processed)).2⟩
              intro q hq
              rcases List.mem_cons.mp hq with rfl | hq2
              · exact normalizeEdited_fieldsPerOk today b n p e
              · exact (ih (o.id :: processed)).1 q hq2
            | false =>
              simp only [hu, Bool.false_eq_true, if_false]
              exact ih (o.id :: processed)
          | none =>
            refine ⟨(ih processed).1, ?_⟩
            intro q hq
            rcases List.mem_cons.mp hq with rfl | hq2
            · exact normalizeEdited_fieldsPerOk today b n p e
            · exact (ih processed).2 q hq2

/-- C7 amended: the absent-or-strictly-positive invariant for
`per_package`/`per_box`/`per_case` is preserved by `add_item`,
`update_item`, `delete_items`, by a history restore whose snapshot rows
satisfy it, and every update/insert the bulk-save reconciler issues
carries normalized multipliers — but (see the counterexample) CSV import
stores a present zero verbatim. -/
theorem claim_C7_per_invariant :
    (∀ (now : Nat) (r : RawItem) (s : Store),
      StorePerOk s → StorePerOk (addItem now r s).2) ∧
    (∀ (now itemId : Nat) (r : RawItem) (s : Store),
      StorePerOk s → StorePerOk (updateItem now itemId r s).2) ∧
    (∀ (ids : List Nat) (s : Store), StorePerOk s → StorePerOk (deleteItems ids s)) ∧
    (∀ (now : Nat) (rows : List InvRow) (s : Store),
      (∀ row ∈ rows, FieldsPerOk row.fields) → StorePerOk (restoreState now rows s)) ∧
    (∀ (today : String) (lK : List OrigRow) (ed : List EditedRow),
      (∀ p ∈ (reconcile today lK ed).updates, FieldsPerOk p.2) ∧
      (∀ f ∈ (reconcile today lK ed).inserts, FieldsPerOk f)) := by
  refine ⟨?_, ?_, ?_, ?_, ?_⟩
  · intro now r s hs
    cases hdup : s.docs.any (fun d => d.fields.product_id == r.product_id) with
    | true => rw [addItem_dup_eq hdup]; exact hs
    | false =>
      rw [addItem_new_eq hdup]
      intro d hd
      rcases List.mem_append.mp hd with hd2 | hd2
      · exact hs d hd2
      · have : d = ⟨r.normalize, s.nextId, now, now⟩ := by simpa using hd2
        rw [this]
        exact normalize_fieldsPerOk r
  · intro now itemId r s hs
    cases hfound : s.docs.any (fun d => d.id == itemId) with
    | false => rw [updateItem_notfound_eq hfound]; exact hs
    | true =>
      cases hconf : s.docs.any
          (fun d => d.id != itemId && d.fields.product_id == r.normalize.product_id) with
      | true => rw [updateItem_conflict_eq hfound hconf]; exact hs
      | false =>
        rw [updateItem_ok_eq hfound hconf]
        intro d hd
        rcases mem_updateFirst hd with h2 | h2
        · exact hs d h2
        · rw [h2]; exact normalize_fieldsPerOk r
  · intro ids s hs d hd
    exact hs d (List.mem_of_mem_filter hd)
  · intro now rows s hrows d hd
    have : d.fields ∈ rows.map InvRow.fields := mem_buildDocs_fields hd
    rcases List.mem_map.mp this with ⟨row, hrow, heq⟩
    rw [← heq]
    exact hrows row hrow
  · intro today lK ed
    exact reconLoop_perOk today lK ed []

def exZeroPerRaw : RawItem := ⟨"B", "N", "Q7", 1, 1, some 0, none, none, 5, "2024-02-02"⟩

theorem claim_C7_witness :
    StorePerOk exStore ∧ StorePerOk (addItem 2 exZeroPerRaw exStore).2 :=
  ⟨by decide, claim_C7_per_invariant.1 2 exZeroPerRaw exStore (by decide)⟩

def exZeroPerFile : CsvFile :=
  ⟨["Brand", "Product Name", "Product ID", "Min Individual Qty", "Current Amount",
    "Cost", "Last Checked", "Per Package"],
   [⟨"B", "N", "P", .val 1, .val 1, .val 0, .missing, .missing, .val 5, "2024-01-01"⟩]⟩

/-- C7 counterexample: the claim says a zero `per_package` given to *any*
operation is normalized to absent and never stored as zero, CSV import
included.  Importing a row whose `Per Package` column holds 0 succeeds and
stores `per_package = 0` verbatim (lines 455-461 convert only `NaN` to
`None`, never 0). -/
theorem claim_C7_counterexample :
    (importCsv 0 exZeroPerFile exStore).1 = true ∧
    ((importCsv 0 exZeroPerFile exStore).2.docs.map
      (fun d => d.fields.per_package)) = [some 0] := by decide

/-! ### C9 and C4: CSV import -/

/-- C9: an import file missing any required column aborts with an error
before `delete_many`, leaving the store untouched. -/
theorem claim_C9_missing_column (now : Nat) (file : CsvFile) (s : Store)
    (h : ∃ c ∈ requiredColumns, c ∉ file.columns) :
    importCsv now file s = (false, s) := by
  obtain ⟨c, hc, hnc⟩ := h
  have hfalse : ¬(requiredColumns.all (fun c => file.columns.contains c) = true) := by
    intro htrue
    exact hnc (by simpa using List.all_eq_true.mp htrue c hc)
  unfold importCsv
  rw [if_neg hfalse]

def exMissingColFile : CsvFile :=
  ⟨["Brand", "Product Name", "Product ID", "Min Individual Qty", "Current Amount",
    "Last Checked"], []⟩

theorem claim_C9_witness :
    importCsv 1 exMissingColFile exStore = (false, exStore) :=
  claim_C9_missing_column 1 exMissingColFile exStore ⟨"Cost", by decide, by decide⟩

theorem parseRows_eq_none : ∀ {rows : List CsvRow},
    (∃ r ∈ rows, parseRow r = none) → parseRows rows = none := by
  intro rows
  induction rows with
  | nil =>
    rintro ⟨r, hr, _⟩
    exact absurd hr (List.not_mem_nil r)
  | cons r0 rs ih =>
    rintro ⟨r, hr, hbad⟩
    rcases List.mem_cons.mp hr with rfl | hr2
    · simp [parseRows, hbad]
    · unfold parseRows
      cases hp : parseRow r0 with
      | none => rfl
      | some f => rw [ih ⟨r, hr2, hbad⟩]

def exBadCsvRow : CsvRow :=
  ⟨"B", "N", "P", .bad, .val 1, .missing, .missing, .missing, .val 5, "2024-01-01"⟩

def exBadRowFile : CsvFile := ⟨requiredColumns, [exBadCsvRow]⟩

/-- C4 counterexample: the claim says an import whose rows contain one
malformed numeric cell leaves the store's record set unchanged.  The code
runs `delete_many({})` *before* parsing any row, so the aborted import
leaves the collection empty — here the pre-import store had one record. -/
theorem claim_C4_counterexample :
    importCsv 0 exBadRowFile exStore = (false, ⟨[], 1⟩) ∧ exStore.docs ≠ [] := by decide

/-- C4 amended: with every required column present and at least one row
whose numeric conversion raises, the import aborts without inserting any
row (no prefix of the file is applied), but the collection has already
been cleared, so the post-import record set is empty rather than
unchanged. -/
theorem claim_C4_malformed_row_clears (now : Nat) (file : CsvFile) (s : Store)
    (hcols : ∀ c ∈ requiredColumns, c ∈ file.columns)
    (hbad : ∃ r ∈ file.rows, parseRow r = none) :
    importCsv now file s = (false, { s with docs := [] }) := by
  have hallb : requiredColumns.all (fun c => file.columns.contains c) = true := by
    rw [List.all_eq_true]
    intro c hc
    simpa using hcols c hc
  unfold importCsv
  rw [if_pos hallb, parseRows_eq_none hbad]

theorem claim_C4_witness :
    importCsv 2 exBadRowFile exStore = (false, { exStore with docs := [] }) :=
  claim_C4_malformed_row_clears 2 exBadRowFile exStore (by decide)
    ⟨exBadCsvRow, by decide, by decide⟩

/-! ### C2: the bulk-save reconciler -/

theorem findMatch_eq_some {pid : String} {processed : List Nat} {o : OrigRow} :
    ∀ {lK : List OrigRow}, findMatch pid processed lK = some o →
      o ∈ lK ∧ pyStrip o.product_id = pid ∧ processed.contains o.id = false := by
  intro lK
  induction lK with
  | nil => intro h; exact absurd h (by simp [findMatch])
  | cons o0 os ih =>
    intro h
    unfold findMatch at h
    cases hc : (!(processed.contains o0.id) && pyStrip o0.product_id == pid) with
    | true =>
      simp only [hc, if_true, Option.some.injEq] at h
      subst h
      simp only [Bool.and_eq_true, Bool.not_eq_true', beq_iff_eq] at hc
      exact ⟨List.mem_cons_self o0 os, hc.2, hc.1⟩
    | false =>
      simp only [hc, Bool.false_eq_true, if_false] at h
      obtain ⟨hm, hpid, hproc⟩ := ih h
      exact ⟨List.mem_cons_of_mem o0 hm, hpid, hproc⟩

theorem pdNe_eq_true {c : PdCell} {v : Option Nat} (h : pdNe c v = true) :
    c.toOpt ≠ v ∨ c = .nan := by
  cases c with
  | pnone =>
    cases v with
    | none => simp [pdNe] at h
    | some w => exact Or.inl (by simp [PdCell.toOpt])
  | nan => exact Or.inr rfl
  | val n =>
    cases v with
    | none => exact Or.inl (by simp [PdCell.toOpt])
    | some w =>
      simp only [pdNe, bne_iff_ne] at h
      exact Or.inl (by simp [PdCell.toOpt, h])

/-- Anatomy of a fired `needs_update`: either some field genuinely
differs, or one of the three last-known multiplier cells is pandas `NaN`,
which lines 1030-1032 count as changed against everything (`NaN != None`
is `True`). -/
theorem needsUpdate_imp {o : OrigRow} {f : Fields} (h : needsUpdate o f = true) :
    FieldsDiffer o f ∨
      o.per_package = .nan ∨ o.per_box = .nan ∨ o.per_case = .nan := by
  unfold needsUpdate at h
  simp only [Bool.or_eq_true, bne_iff_ne] at h
  unfold FieldsDiffer
  rcases h with ((((((((h | h) | h) | h) | h) | hp) | hb) | hc) | h) | h
  · exact Or.inl (Or.inl h)
  · exact Or.inl (Or.inr (Or.inl h))
  · exact Or.inl (Or.inr (Or.inr (Or.inl h)))
  · exact Or.inl (Or.inr (Or.inr (Or.inr (Or.inl h))))
  · exact Or.inl (Or.inr (Or.inr (Or.inr (Or.inr (Or.inl h)))))
  · rcases pdNe_eq_true hp with hg | hnan
    · exact Or.inl (Or.inr (Or.inr (Or.inr (Or.inr (Or.inr (Or.inl hg))))))
    · exact Or.inr (Or.inl hnan)
  · rcases pdNe_eq_true hb with hg | hnan
    · exact Or.inl (Or.inr (Or.inr (Or.inr (Or.inr (Or.inr (Or.inr (Or.inl hg)))))))
    · exact Or.inr (Or.inr (Or.inl hnan))
  · rcases pdNe_eq_true hc with hg | hnan
    · exact Or.inl (Or.inr (Or.inr (Or.inr (Or.inr (Or.inr (Or.inr (Or.inr (Or.inl hg))))))))
    · exact Or.inr (Or.inr (Or.inr hnan))
  · exact Or.inl (Or.inr (Or.inr (Or.inr (Or.inr (Or.inr (Or.inr (Or.inr (Or.inr (Or.inl h)))))))))
  · exact Or.inl (Or.inr (Or.inr (Or.inr (Or.inr (Or.inr (Or.inr (Or.inr (Or.inr (Or.inr h)))))))))

/-! Step equations for the reconciliation loop and its matching trace. -/

theorem reconLoop_step_skip (today : String) (lK : List OrigRow) (e : EditedRow)
    (es : List EditedRow) (proc : List Nat)
    (h : e.brand = none ∨ e.product_name = none ∨ e.product_id = none) :
    reconLoop today lK (e :: es) proc = reconLoop today lK es proc := by
  rcases h with h | h | h
  · simp [reconLoop, h]
  · cases hb : e.brand <;> simp [reconLoop, hb, h]
  · cases hb : e.brand <;> cases hn : e.product_name <;> simp [reconLoop, hb, hn, h]

theorem reconLoop_step_matched_upd (today : String) (lK : List OrigRow)
    {e : EditedRow} (es : List EditedRow) (proc : List Nat) {b n p : String}
    {o : OrigRow}
    (hb : e.brand = some b) (hn : e.product_name = some n) (hp : e.product_id = some p)
    (hm : findMatch (normalizeEdited today b n p e).product_id proc lK = some o)
    (hu : needsUpdate o (normalizeEdited today b n p e) = true) :
    reconLoop today lK (e :: es) proc =
      { reconLoop today lK es (o.id :: proc) with
        updates := (o.id, normalizeEdited today b n p e)
          :: (reconLoop today lK es (o.id :: proc)).updates } := by
  simp [reconLoop, hb, hn, hp, hm, hu]

theorem reconLoop_step_matched_noupd (today : String) (lK : List OrigRow)
    {e : EditedRow} (es : List EditedRow) (proc : List Nat) {b n p : String}
    {o : OrigRow}
    (hb : e.brand = some b) (hn : e.product_name = some n) (hp : e.product_id = some p)
    (hm : findMatch (normalizeEdited today b n p e).product_id proc lK = some o)
    (hu : needsUpdate o (normalizeEdited today b n p e) = false) :
    reconLoop today lK (e :: es) proc = reconLoop today lK es (o.id :: proc) := by
  simp [reconLoop, hb, hn, hp, hm, hu]

theorem reconLoop_step_unmatched (today : String) (lK : List OrigRow)
    {e : EditedRow} (es : List EditedRow) (proc : List Nat) {b n p : String}
    (hb : e.brand = some b) (hn : e.product_name = some n) (hp : e.product_id = some p)
    (hm : findMatch (normalizeEdited today b n p e).product_id proc lK = none) :
    reconLoop today lK (e :: es) proc =
      { reconLoop today lK es proc with
        inserts := normalizeEdited today b n p e
          :: (reconLoop today lK es proc).inserts } := by
  simp [reconLoop, hb, hn, hp, hm]

theorem procIds_step_skip (lK : List OrigRow) (e : EditedRow) (es : List EditedRow)
    (proc : List Nat)
    (h : e.brand = none ∨ e.product_name = none ∨ e.product_id = none) :
    procIds lK (e :: es) proc = procIds lK es proc := by
  rcases h with h | h | h
  · simp [procIds, h]
  · cases hb : e.brand <;> simp [procIds, hb, h]
  · cases hb : e.brand <;> cases hn : e.product_name <;> simp [procIds, hb, hn, h]

theorem procIds_step_matched (lK : List OrigRow) {e : EditedRow} (es : List EditedRow)
    (proc : List Nat) {b n p : String} {o : OrigRow}
    (hb : e.brand = some b) (hn : e.product_name = some n) (hp : e.product_id = some p)
    (hm : findMatch (pyStrip p) proc lK = some o) :
    procIds lK (e :: es) proc = procIds lK es (o.id :: proc) := by
  simp [procIds, hb, hn, hp, hm]

theorem procIds_step_unmatched (lK : List OrigRow) {e : EditedRow} (es : List EditedRow)
    (proc : List Nat) {b n p : String}
    (hb : e.brand = some b) (hn : e.product_name = some n) (hp : e.product_id = some p)
    (hm : findMatch (pyStrip p) proc lK = none) :
    procIds lK (e :: es) proc = procIds lK es proc := by
  simp [procIds, hb, hn, hp, hm]

theorem reconLoop_deletes (today : String) (lK : List OrigRow) :
    ∀ (es : List EditedRow) (processed : List Nat),
      (reconLoop today lK es processed).deletes
        = (lK.filter (fun o => !((procIds lK es processed).contains o.id))).map OrigRow.id := by
  intro es
  induction es with
  | nil => intro processed; rfl
  | cons e es ih =>
    intro processed
    by_cases hess : e.brand = none ∨ e.product_name = none ∨ e.product_id = none
    · rw [reconLoop_step_skip today lK e es processed hess,
        procIds_step_skip lK e es processed hess]
      exact ih processed
    · push_neg at hess
      obtain ⟨b, hb⟩ := Option.ne_none_iff_exists'.mp hess.1
      obtain ⟨n, hn⟩ := Option.ne_none_iff_exists'.mp hess.2.1
      obtain ⟨p, hp⟩ := Option.ne_none_iff_exists'.mp hess.2.2
      have hfe : (normalizeEdited today b n p e).product_id = pyStrip p := rfl
      cases hm : findMatch (pyStrip p) processed lK with
      | some o =>
        have hm' : findMatch (normalizeEdited today b n p e).product_id processed lK
            = some o := by rw [hfe]; exact hm
        cases hu : needsUpdate o (normalizeEdited today b n p e) with
        | true =>
          rw [reconLoop_step_matched_upd today lK es processed hb hn hp hm' hu,
            procIds_step_matched lK es processed hb hn hp hm]
          exact ih (o.id :: processed)
        | false =>
          rw [reconLoop_step_matched_noupd today lK es processed hb hn hp hm' hu,
            procIds_step_matched lK es processed hb hn hp hm]
          exact ih (o.id :: processed)
      | none =>
        have hm' : findMatch (normalizeEdited today b n p e).product_id processed lK
            = none := by rw [hfe]; exact hm
        rw [reconLoop_step_unmatched today lK es processed hb hn hp hm',
          procIds_step_unmatched lK es processed hb hn hp hm]
        exact ih processed

theorem reconLoop_updates_sound (today : String) (lK : List OrigRow) :
    ∀ (es : List EditedRow) (processed : List Nat) (i : Nat) (f : Fields),
      (i, f) ∈ (reconLoop today lK es processed).updates →
      ∃ o ∈ lK, o.id = i ∧ pyStrip o.product_id = f.product_id ∧
        (FieldsDiffer o f ∨
          o.per_package = .nan ∨ o.per_box = .nan ∨ o.per_case = .nan) := by
  intro es
  induction es with
  | nil =>
    intro processed i f h
    exact absurd h (by simp [reconLoop])
  | cons e es ih =>
    intro processed i f h
    by_cases hess : e.brand = none ∨ e.product_name = none ∨ e.product_id = none
    · rw [reconLoop_step_skip today lK e es processed hess] at h
      exact ih processed i f h
    · push_neg at hess
      obtain ⟨b, hb⟩ := Option.ne_none_iff_exists'.mp hess.1
      obtain ⟨n, hn⟩ := Option.ne_none_iff_exists'.mp hess.2.1
      obtain ⟨p, hp⟩ := Option.ne_none_iff_exists'.mp hess.2.2
      cases hm : findMatch (normalizeEdited today b n p e).product_id processed lK with
      | some o =>
        cases hu : needsUpdate o (normalizeEdited today b n p e) with
        | true =>
          rw [reconLoop_step_matched_upd today lK es processed hb hn hp hm hu] at h
          rcases List.mem_cons.mp h with heq | hmem
          · obtain ⟨rfl, rfl⟩ : i = o.id ∧ f = normalizeEdited today b n p e := by
              simpa [Prod.ext_iff] using heq
            obtain ⟨homem, hopid, _⟩ := findMatch_eq_some hm
            exact ⟨o, homem, rfl, hopid, needsUpdate_imp hu⟩
          · exact ih (o.id :: processed) i f hmem
        | false =>
          rw [reconLoop_step_matched_noupd today lK es processed hb hn hp hm hu] at h
          exact ih (o.id :: processed) i f h
      | none =>
        rw [reconLoop_step_unmatched today lK es processed hb hn hp hm] at h
        exact ih processed i f h

theorem hasEssentials_eq_false {e : EditedRow}
    (h : e.brand = none ∨ e.product_name = none ∨ e.product_id = none) :
    hasEssentials e = false := by
  rcases h with h | h | h <;> simp [hasEssentials, h]

theorem hasEssentials_eq_true {e : EditedRow} {b n p : String}
    (hb : e.brand = some b) (hn : e.product_name = some n) (hp : e.product_id = some p) :
    hasEssentials e = true := by
  simp [hasEssentials, hb, hn, hp]

theorem reconLoop_insert_count (today : String) (lK : List OrigRow) :
    ∀ (es : List EditedRow) (processed : List Nat),
      (reconLoop today lK es processed).inserts.length
          + (procIds lK es processed).length
        = (es.filter hasEssentials).length + processed.length := by
  intro es
  induction es with
  | nil => intro processed; simp [reconLoop, procIds]
  | cons e es ih =>
    intro processed
    by_cases hess : e.brand = none ∨ e.product_name = none ∨ e.product_id = none
    · rw [reconLoop_step_skip today lK e es processed hess,
        procIds_step_skip lK e es processed hess,
        List.filter_cons_of_neg (by simp [hasEssentials_eq_false hess])]
      exact ih processed
    · push_neg at hess
      obtain ⟨b, hb⟩ := Option.ne_none_iff_exists'.mp hess.1
      obtain ⟨n, hn⟩ := Option.ne_none_iff_exists'.mp hess.2.1
      obtain ⟨p, hp⟩ := Option.ne_none_iff_exists'.mp hess.2.2
      rw [List.filter_cons_of_pos (by simp [hasEssentials_eq_true hb hn hp])]
      have hfe : (normalizeEdited today b n p e).product_id = pyStrip p := rfl
      cases hm : findMatch (pyStrip p) processed lK with
      | some o =>
        have hm' : findMatch (normalizeEdited today b n p e).product_id processed lK
            = some o := by rw [hfe]; exact hm
        cases hu : needsUpdate o (normalizeEdited today b n p e) with
        | true =>
          rw [reconLoop_step_matched_upd today lK es processed hb hn hp hm' hu,
            procIds_step_matched lK es processed hb hn hp hm]
          have := ih (o.id :: processed)
          simp only [List.length_cons] at this ⊢
          omega
        | false =>
          rw [reconLoop_step_matched_noupd today lK es processed hb hn hp hm' hu,
            procIds_step_matched lK es processed hb hn hp hm]
          have := ih (o.id :: processed)
          simp only [List.length_cons] at this ⊢
          omega
      | none =>
        have hm' : findMatch (normalizeEdited today b n p e).product_id processed lK
            = none := by rw [hfe]; exact hm
        rw [reconLoop_step_unmatched today lK es processed hb hn hp hm',
          procIds_step_unmatched lK es processed hb hn hp hm]
        have := ih processed
        simp only [List.length_cons] at this ⊢
        omega

def exOrigA : OrigRow :=
  ⟨1, "BrandA", "ItemA", "X", 5, 3, .pnone, .pnone, .pnone, 100, "2024-01-01"⟩

def exOrigB : OrigRow :=
  ⟨2, "BrandB", "ItemB", "Y", 2, 2, .pnone, .pnone, .pnone, 200, "2024-01-01"⟩

def exEdit1 : EditedRow :=
  ⟨some "BrandA", some "ItemA", some "X", some 5, some 7, none, none, none,
   some 100, some "2024-01-01"⟩

def exEdit2 : EditedRow :=
  ⟨some "BrandZ", some "ItemZ", some "Z", some 1, some 1, none, none, none,
   some 50, some "2024-01-02"⟩

def exUpdFields : Fields := ⟨"BrandA", "ItemA", "X", 5, 7, none, none, none, 100, "2024-01-01"⟩

def exInsFields : Fields := ⟨"BrandZ", "ItemZ", "Z", 1, 1, none, none, none, 50, "2024-01-02"⟩

/-- A listing in which only the first record has a `per_package`, so the
DataFrame's `Per Package` column is `float64` and the second record's
absent multiplier reads back as `NaN`. -/
def exNanListing : List InvRow :=
  [⟨⟨"A", "N1", "P1", 1, 1, some 5, none, none, 10, "2024-01-01"⟩, 1⟩,
   ⟨⟨"B", "N2", "P2", 1, 1, none, none, none, 20, "2024-01-01"⟩, 2⟩]

def exNanLastKnown : List OrigRow := mkOrigRows exNanListing

def exNanOrig2 : OrigRow :=
  ⟨2, "B", "N2", "P2", 1, 1, .nan, .pnone, .pnone, 20, "2024-01-01"⟩

/-- The grid exactly as displayed — the user edits nothing. -/
def exNanEdit1 : EditedRow :=
  ⟨some "A", some "N1", some "P1", some 1, some 1, some 5, none, none,
   some 10, some "2024-01-01"⟩

def exNanEdit2 : EditedRow :=
  ⟨some "B", some "N2", some "P2", some 1, some 1, none, none, none,
   some 20, some "2024-01-01"⟩

def exNanF2 : Fields := ⟨"B", "N2", "P2", 1, 1, none, none, none, 20, "2024-01-01"⟩

/-- C2 counterexample: the claim says an update is issued for a matched
row *only if some field differs*.  Take a listing of two records where
only the first carries a `per_package`; pandas promotes that column to
`float64`, so the second record's absent multiplier becomes `NaN`
(`mkOrigRows`).  Saving the grid completely unedited issues an update for
record 2 (because line 1030 evaluates `NaN != None` as `True`) even
though no field of the matched pair differs. -/
theorem claim_C2_counterexample :
    exNanLastKnown =
      [⟨1, "A", "N1", "P1", 1, 1, .val 5, .pnone, .pnone, 10, "2024-01-01"⟩,
       exNanOrig2] ∧
    reconcile "2024-03-01" exNanLastKnown [exNanEdit1, exNanEdit2] =
      ⟨[(2, exNanF2)], [], []⟩ ∧
    ¬ FieldsDiffer exNanOrig2 exNanF2 := by decide

/-- C2 amended: the Save-All reconciler.  (1) On the spec's worked
example — last-known {A(id=1,pid="X"), B(id=2,pid="Y")}, edited rows
[{pid="X", current_amount changed}, {pid="Z", new}] — it issues exactly
one update of id 1, one insert of "Z" and one delete of id 2.  (2) For
every input, the delete list is exactly the last-known ids never marked
processed by the greedy first-match trace.  (3) Every issued update
targets a last-known row matched by trimmed product_id, and only when
some field genuinely differs *or* one of the matched row's
per_package/per_box/per_case cells is pandas NaN (an absent multiplier in
a column another listed record populates), which the comparison counts as
changed against everything.  (4) Each edited row that survives the
essential-field skip produces exactly one of: a processed match or an
insert. -/
theorem claim_C2_reconciler :
    (reconcile "2024-03-01" [exOrigA, exOrigB] [exEdit1, exEdit2] =
      ⟨[(1, exUpdFields)], [exInsFields], [2]⟩) ∧
    (∀ (today : String) (lK : List OrigRow) (ed : List EditedRow),
      (reconcile today lK ed).deletes
        = (lK.filter (fun o => !((procIds lK ed []).contains o.id))).map OrigRow.id) ∧
    (∀ (today : String) (lK : List OrigRow) (ed : List EditedRow) (i : Nat) (f : Fields),
      (i, f) ∈ (reconcile today lK ed).updates →
      ∃ o ∈ lK, o.id = i ∧ pyStrip o.product_id = f.product_id ∧
        (FieldsDiffer o f ∨
          o.per_package = .nan ∨ o.per_box = .nan ∨ o.per_case = .nan)) ∧
    (∀ (today : String) (lK : List OrigRow) (ed : List EditedRow),
      (reconcile today lK ed).inserts.length + (procIds lK ed []).length
        = (ed.filter hasEssentials).length) := by
  refine ⟨by decide, ?_, ?_, ?_⟩
  · intro today lK ed
    exact reconLoop_deletes today lK ed []
  · intro today lK ed i f h
    exact reconLoop_updates_sound today lK ed [] i f h
  · intro today lK ed
    simpa using reconLoop_insert_count today lK ed []

theorem claim_C2_witness :
    ∃ o ∈ [exOrigA, exOrigB], o.id = 1 ∧
      pyStrip o.product_id = exUpdFields.product_id ∧
      (FieldsDiffer o exUpdFields ∨
        o.per_package = .nan ∨ o.per_box = .nan ∨ o.per_case = .nan) :=
  claim_C2_reconciler.2.2.1 "2024-03-01" [exOrigA, exOrigB] [exEdit1, exEdit2]
    1 exUpdFields (by decide)

end InventoryApp
